import Mathlib

/-!
Verification of the description-decoding and event-normalization pipeline of
the find-me calendar tool. The definitions below are a shallow embedding of
the JavaScript source (src/index.js): text is List Char / String, the global
regex replaces of decodeDescription and getDatum are scanners walking the
character list left to right, JSON.parse is modelled by an executable
recognizer for the feed payload shape, and the dynamic bucket lookup
events[event.role].push is an Option-valued update that is none exactly when
the JavaScript code would raise a TypeError.
-/

namespace FindMe

/-- The single-quote character, written via its code point. -/
def squote : Char := Char.ofNat 39

/-- Embedding of a JavaScript global replace of the two-character escape
sequence backslash-t with the plain character t (the replaces on lines
97, 112-114, 221 of the source). The scanner walks left to right,
substituting each match and continuing after it, exactly as a global
regex replace does; on a failed match it advances one character. -/
def unescOne (t : Char) : List Char → List Char
  | [] => []
  | [c] => [c]
  | a :: b :: rest =>
    if a = '\\' ∧ b = t then t :: unescOne t rest
    else a :: unescOne t (b :: rest)

/-- Tail matcher for the comma-newline collapse regex: consume optional
spaces, then a literal backslash-n line-break artifact. -/
def dropSpacesEscNl : List Char → Option (List Char)
  | [] => none
  | [_] => none
  | a :: b :: rest =>
    if a = ' ' then dropSpacesEscNl (b :: rest)
    else if a = '\\' ∧ b = 'n' then some rest
    else none

/-- Tail matcher for the newline-close-brace collapse regex: consume optional
spaces, then a closing brace. -/
def dropSpacesClose : List Char → Option (List Char)
  | [] => none
  | a :: rest =>
    if a = ' ' then dropSpacesClose rest
    else if a = '\x7d' then some rest
    else none

/-- Fuel-driven scanner for the replace collapsing an escaped comma, optional
spaces and a line-break artifact into a plain comma (line 107 of the source).
The fuel only bounds recursion depth; with fuel at least the list length the
scan always completes, and the fuel-exhausted arm returns its input. -/
def ccnF : Nat → List Char → List Char
  | 0, l => l
  | _ + 1, [] => []
  | _ + 1, [c] => [c]
  | fuel + 1, a :: b :: rest =>
    if a = '\\' ∧ b = ',' then
      match dropSpacesEscNl rest with
      | some r => ',' :: ccnF fuel r
      | none => a :: ccnF fuel (b :: rest)
    else a :: ccnF fuel (b :: rest)

/-- The comma-newline collapse pass. -/
def collapseCommaNl (l : List Char) : List Char := ccnF l.length l

/-- Fuel-driven scanner for the replace collapsing an opening brace, optional
spaces and a line-break artifact into a plain opening brace (line 108). -/
def conF : Nat → List Char → List Char
  | 0, l => l
  | _ + 1, [] => []
  | fuel + 1, a :: rest =>
    if a = '\x7b' then
      match dropSpacesEscNl rest with
      | some r => '\x7b' :: conF fuel r
      | none => a :: conF fuel rest
    else a :: conF fuel rest

/-- The open-brace-newline collapse pass. -/
def collapseOpenNl (l : List Char) : List Char := conF l.length l

/-- Fuel-driven scanner for the replace collapsing a line-break artifact,
optional spaces and a closing brace into a plain closing brace (line 109). -/
def cncF : Nat → List Char → List Char
  | 0, l => l
  | _ + 1, [] => []
  | _ + 1, [c] => [c]
  | fuel + 1, a :: b :: rest =>
    if a = '\\' ∧ b = 'n' then
      match dropSpacesClose rest with
      | some r => '\x7d' :: cncF fuel r
      | none => a :: cncF fuel (b :: rest)
    else a :: cncF fuel (b :: rest)

/-- The newline-close-brace collapse pass. -/
def collapseNlClose (l : List Char) : List Char := cncF l.length l

/-- The six substitution passes of decodeDescription in source order:
the three newline collapses, then the generic unescapes of commas,
semicolons and single quotes. -/
def decodeDescriptionL (l : List Char) : List Char :=
  unescOne squote (unescOne ';' (unescOne ','
    (collapseNlClose (collapseOpenNl (collapseCommaNl l)))))

/-- Embedding of decodeDescription (source lines 101-117): an absent or empty
description is replaced by the two-character object text, then the six
substitution passes run. -/
def decodeDescription (input : Option String) : String :=
  match input with
  | none => String.mk (decodeDescriptionL (String.data ("\x7b\x7d")))
  | some s =>
    if s = "" then String.mk (decodeDescriptionL (String.data ("\x7b\x7d")))
    else String.mk (decodeDescriptionL s.data)

/-- Reference definition of the normalizer, following the words of the
specification and of claim C2: if the input is absent or empty it returns
the text of an empty object, and otherwise it applies, in this order, the
comma-newline collapse, the open-brace-newline collapse, the
newline-close-brace collapse, and the unescaping of commas, semicolons and
single quotes. -/
def normalizeSpec (input : Option String) : String :=
  match input with
  | none => "\x7b\x7d"
  | some s =>
    if s = "" then "\x7b\x7d"
    else
      String.mk (unescOne squote (unescOne ';' (unescOne ','
        (collapseNlClose (collapseOpenNl (collapseCommaNl s.data))))))

/-- C2: the description normalizer equals the reference definition from the
specification on every input and never fails: absent or empty input yields
the empty-object text, and otherwise the scoped newline collapses run before
the generic unescapes, in the stated order. -/
theorem c2_normalizer_matches_reference (input : Option String) :
    decodeDescription input = normalizeSpec input := by
  cases input with
  | none => rfl
  | some s =>
    by_cases h : s = ""
    · subst h; rfl
    · simp [decodeDescription, normalizeSpec, h, decodeDescriptionL]

/-- The decoded payload shape: a JSON object with string-valued fields,
keyed in textual order of appearance. -/
abbrev JsonObj := List (String × String)

/-- Skip JSON whitespace. -/
def skipWs : List Char → List Char
  | [] => []
  | c :: rest =>
    if c = ' ' ∨ c = '\t' ∨ c = '\n' ∨ c = '\r' then skipWs rest else c :: rest

/-- Decoding of a JSON string escape character. The unicode escape is not
modelled; inputs using it are treated as unparsable. -/
def jsonEscChar (c : Char) : Option Char :=
  if c = '"' then some '"'
  else if c = '\\' then some '\\'
  else if c = '/' then some '/'
  else if c = 'n' then some '\n'
  else if c = 't' then some '\t'
  else if c = 'r' then some '\r'
  else if c = 'b' then some (Char.ofNat 8)
  else if c = 'f' then some (Char.ofNat 12)
  else none

/-- Parse the body of a JSON string after its opening quote, returning the
decoded content and the remainder after the closing quote. -/
def parseStringBody : List Char → Option (List Char × List Char)
  | [] => none
  | '"' :: rest => some ([], rest)
  | '\\' :: c :: rest =>
    match jsonEscChar c, parseStringBody rest with
    | some e, some (s, r) => some (e :: s, r)
    | _, _ => none
  | c :: rest =>
    if c.toNat < 32 then none
    else
      match parseStringBody rest with
      | some (s, r) => some (c :: s, r)
      | none => none

/-- Parse one key-value member: a string key, a colon, a string value. -/
def parseMember (l : List Char) : Option ((String × String) × List Char) :=
  match skipWs l with
  | '"' :: r1 =>
    match parseStringBody r1 with
    | some (k, r2) =>
      match skipWs r2 with
      | ':' :: r3 =>
        match skipWs r3 with
        | '"' :: r4 =>
          match parseStringBody r4 with
          | some (v, r5) => some ((String.mk k, String.mk v), r5)
          | none => none
        | _ => none
      | _ => none
    | none => none
  | _ => none

/-- Parse a comma-separated sequence of members up to the closing brace. -/
def parseMembersLoop : Nat → List Char → Option (JsonObj × List Char)
  | 0, _ => none
  | fuel + 1, l =>
    match parseMember l with
    | some (kv, r) =>
      match skipWs r with
      | ',' :: r2 =>
        match parseMembersLoop fuel r2 with
        | some (obj, r3) => some (kv :: obj, r3)
        | none => none
      | '\x7d' :: r2 => some ([kv], r2)
      | _ => none
    | none => none

/-- Modelled from the spec: JSON.parse is a platform builtin absent from the
repository source. Following section 4.2, which describes the payload as a
generic structured-data document, an object with string and enum fields, it
is modelled as an executable recognizer of JSON objects whose values are
strings; any other input, including all malformed text, yields none. -/
def jsonParse (s : String) : Option JsonObj :=
  match skipWs s.data with
  | '\x7b' :: r =>
    match skipWs r with
    | '\x7d' :: r2 => if skipWs r2 = [] then some [] else none
    | _ =>
      match parseMembersLoop (r.length + 1) r with
      | some (obj, r2) => if skipWs r2 = [] then some obj else none
      | none => none
  | _ => none

/-- The structured description: either the decoded payload object, or the
malformed-marker variant built in the catch branch of source lines 53-58,
carrying the post-normalization text. -/
inductive StructuredDescription where
  | ok (v : JsonObj)
  | malformedJson (originalData : String)
  deriving DecidableEq

/-- Last-wins field lookup, as property assignment order gives for JSON.parse. -/
def jsonField (v : JsonObj) (k : String) : Option String :=
  ((v.filter (fun p => p.1 = k)).getLast?).map (fun p => p.2)

/-- The role field read from a structured description; the malformed marker
carries no role field, so reading it gives nothing, as details.role does on
the fallback object. -/
def StructuredDescription.roleField : StructuredDescription → Option String
  | .ok v => jsonField v ("role")
  | .malformedJson _ => none

/-- The type field read from a structured description. -/
def StructuredDescription.typeField : StructuredDescription → Option String
  | .ok v => jsonField v ("type")
  | .malformedJson _ => none

/-- Embedding of the try-catch around JSON.parse (source lines 51-58): on
parse success the decoded object is kept, on failure the malformed marker
carrying the input text is built. Total by construction. -/
def decode (t : String) : StructuredDescription :=
  match jsonParse t with
  | some v => StructuredDescription.ok v
  | none => StructuredDescription.malformedJson t

/-- C1: the structured decoder is total, never raising to its caller: when
parsing the text as JSON fails it returns the malformed-marker variant
carrying the post-normalization input text, and on parse success it returns
the decoded object unchanged. -/
theorem c1_decoder_total (t : String) :
    (jsonParse t = none → decode t = StructuredDescription.malformedJson t) ∧
    (∀ v, jsonParse t = some v → decode t = StructuredDescription.ok v) := by
  constructor
  · intro h; simp [decode, h]
  · intro v h; simp [decode, h]

/-- Witness for C1 at a concrete unparsable text and a concrete parsable one. -/
theorem c1_decoder_total_witness :
    decode ("nonsense") = StructuredDescription.malformedJson ("nonsense") ∧
    decode ("\x7b\x7d") = StructuredDescription.ok [] :=
  ⟨(c1_decoder_total ("nonsense")).1 (by decide),
   (c1_decoder_total ("\x7b\x7d")).2 [] (by decide)⟩

/-- A raw event as produced by the calendar grammar collaborator: the DTSTART
value, SUMMARY, LOCATION and DESCRIPTION fields, each possibly absent. -/
structure RawEvent where
  dtstartValue : Option String
  summary : Option String
  location : Option String
  description : Option String
  deriving DecidableEq

/-- A canonical event record (source lines 61-67 and 198-204). -/
structure Event where
  start : String
  name : String
  location : String
  role : String
  type : String
  deriving DecidableEq

/-- Embedding of getDatum without a length argument (source lines 95-99):
absent input becomes empty text, then escaped commas are unescaped. -/
def getDatum (input : Option String) : String :=
  String.mk (unescOne ',' (input.getD ("")).data)

/-- Pad a character list with spaces up to length n, then truncate to n,
as padEnd(maxlen).slice(0, maxlen) does. -/
def padTakeL (l : List Char) (n : Nat) : List Char :=
  (l ++ List.replicate (n - l.length) ' ').take n

/-- Embedding of getDatum with a positive maxlen argument (source lines
219-224): unescape commas, pad with spaces to maxlen, truncate to maxlen. -/
def getDatumMax (input : Option String) (maxlen : Nat) : String :=
  String.mk (padTakeL (unescOne ',' (input.getD ("")).data) maxlen)

/-- The classifier of the first source variant (lines 61-67): the start field
is the unescaped DTSTART value truncated to its first eight characters by
slice(0, 8); name and location are the unescaped raw fields; role and type
are read from the structured description with absent values becoming empty
text. -/
def classify (raw : RawEvent) (d : StructuredDescription) : Event :=
  { start := String.mk ((getDatum raw.dtstartValue).data.take 8)
  , name := getDatum raw.summary
  , location := getDatum raw.location
  , role := getDatum d.roleField
  , type := getDatum d.typeField }

/-- The classifier of the second source variant (lines 198-204), which calls
getDatum with maxlen 8, 50 and 30 for start, name and location. -/
def classifyMax (raw : RawEvent) (d : StructuredDescription) : Event :=
  { start := getDatumMax raw.dtstartValue 8
  , name := getDatumMax raw.summary 50
  , location := getDatumMax raw.location 30
  , role := getDatum d.roleField
  , type := getDatum d.typeField }

/-- The bucket mapping initialized on source line 43: exactly a speaker list
and a host list. -/
structure EventBuckets where
  speaker : List Event
  host : List Event
  deriving DecidableEq

/-- The initial bucket mapping of source line 43. -/
def initialBuckets : EventBuckets := { speaker := [], host := [] }

/-- Embedding of events[event.role].push(event) on source line 68: indexing
the bucket mapping by the role text. The result is none exactly when the
role names no existing bucket, in which case the JavaScript code dereferences
undefined and raises a TypeError. -/
def pushEvent (b : EventBuckets) (e : Event) : Option EventBuckets :=
  if e.role = ("speaker" : String) then some { b with speaker := b.speaker ++ [e] }
  else if e.role = ("host" : String) then some { b with host := b.host ++ [e] }
  else none

/-- Shared sample event for concrete witnesses. -/
def sampleEvent (s r : String) : Event :=
  { start := s, name := "", location := "", role := r, type := "" }

/-- Shared sample raw event for concrete witnesses. -/
def sampleRaw (s : String) : RawEvent :=
  { dtstartValue := some s, summary := none, location := none, description := none }

/-- C5: the classifier sets the start field to the first eight characters of
the raw start timestamp after unescaping backslash-escaped commas; in
particular a DTSTART value of 20240615T090000 yields the start key
20240615. -/
theorem c5_classifier_start (raw : RawEvent) (d : StructuredDescription) :
    (classify raw d).start =
      String.mk ((unescOne ',' ((raw.dtstartValue).getD ("")).data).take 8) ∧
    (raw.dtstartValue = some ("20240615T090000") →
      (classify raw d).start = ("20240615" : String)) := by
  constructor
  · rfl
  · intro h
    show String.mk ((unescOne ',' ((raw.dtstartValue).getD ("")).data).take 8)
        = ("20240615" : String)
    rw [h]
    decide

/-- Witness for C5 at a concrete raw event. -/
theorem c5_classifier_start_witness :
    (classify (sampleRaw ("20240615T090000"))
      (StructuredDescription.malformedJson (""))).start = ("20240615" : String) :=
  (c5_classifier_start (sampleRaw ("20240615T090000"))
    (StructuredDescription.malformedJson (""))).2 (by rfl)

/-- C6: appending an event whose role names no existing bucket rejects, as
the code raises a TypeError there, rather than silently creating a bucket or
discarding the event; this covers the empty role text and unknown values
such as sponsor. -/
theorem c6_unknown_role_rejects (b : EventBuckets) (e : Event)
    (h1 : e.role ≠ ("speaker" : String)) (h2 : e.role ≠ ("host" : String)) :
    pushEvent b e = none := by
  simp [pushEvent, h1, h2]

/-- Witness for C6 at the unknown role sponsor. -/
theorem c6_unknown_role_rejects_witness :
    pushEvent initialBuckets (sampleEvent ("20240101") ("sponsor")) = none :=
  c6_unknown_role_rejects initialBuckets (sampleEvent ("20240101") ("sponsor"))
    (by decide) (by decide)

/-- C7 counterexample: the bucket mapping does not carry the full four-role
set; an event whose decoded role is booth is not appended without error, the
append rejects. -/
theorem c7_counterexample :
    pushEvent initialBuckets
      (classify (sampleRaw ("20240615T090000"))
        (StructuredDescription.ok [(("role"), ("booth")), (("type"), ("meetup"))]))
      = none := by
  decide

/-- C7 amended: the bucket mapping has its keys fixed to speaker and host
only; for an event whose role is one of these two values, the append
succeeds and places the event at the end of that bucket, while booth and
attendee roles are rejected like any unknown value. -/
theorem c7_amended_two_buckets (b : EventBuckets) (e : Event) :
    (e.role = ("speaker" : String) →
      pushEvent b e = some { b with speaker := b.speaker ++ [e] }) ∧
    (e.role = ("host" : String) →
      pushEvent b e = some { b with host := b.host ++ [e] }) := by
  constructor
  · intro h; simp [pushEvent, h]
  · intro h; simp [pushEvent, h]

/-- Witness for C7 amended at a concrete speaker event. -/
theorem c7_amended_two_buckets_witness :
    pushEvent initialBuckets (sampleEvent ("20250301") ("speaker")) =
      some { initialBuckets with
              speaker := initialBuckets.speaker ++ [sampleEvent ("20250301") ("speaker")] } :=
  (c7_amended_two_buckets initialBuckets (sampleEvent ("20250301") ("speaker"))).1 (by rfl)

/-- JavaScript string comparison: code-unit lexicographic order, as the
greater-than on line 81 uses. -/
def jsStrLt : List Char → List Char → Bool
  | [], [] => false
  | [], _ :: _ => true
  | _ :: _, [] => false
  | a :: as, b :: bs =>
    if a.toNat < b.toNat then true
    else if b.toNat < a.toNat then false
    else jsStrLt as bs

/-- Embedding of filterByStartDate (source line 81): keep an event when its
start text compares strictly greater than the reference date text. -/
def filterByStartDate (today : String) (e : Event) : Bool :=
  jsStrLt today.data e.start.data

/-- Embedding of the past-event removal (source lines 78-84): when the
historical flag is off, both buckets are filtered by filterByStartDate
against the reference date key; when it is on, nothing happens. -/
def removePast (includeHistorical : Bool) (today : String) (b : EventBuckets) :
    EventBuckets :=
  if includeHistorical then b
  else { speaker := b.speaker.filter (filterByStartDate today)
       , host := b.host.filter (filterByStartDate today) }

/-- Decimal digit test on characters. -/
def isDigitC (c : Char) : Bool := decide (48 ≤ c.toNat ∧ c.toNat ≤ 57)

/-- Numeric value of a most-significant-first decimal digit list, the number
an 8-digit date key denotes. -/
def digitsVal : List Char → Nat
  | [] => 0
  | c :: rest => (c.toNat - 48) * 10 ^ rest.length + digitsVal rest

/-- An 8-digit date key: exactly eight decimal digits. -/
def is8DigitKey (s : String) : Bool := s.data.length == 8 && s.data.all isDigitC

theorem digitsVal_lt_pow : ∀ (l : List Char), (∀ c ∈ l, isDigitC c = true) →
    digitsVal l < 10 ^ l.length
  | [], _ => by simp [digitsVal]
  | c :: rest, h => by
    have hc : isDigitC c = true := h c (by simp)
    have hrest : ∀ x ∈ rest, isDigitC x = true := fun x hx => h x (by simp [hx])
    have ih := digitsVal_lt_pow rest hrest
    have h9 : c.toNat - 48 ≤ 9 := by
      simp [isDigitC] at hc
      omega
    have hmul : (c.toNat - 48) * 10 ^ rest.length ≤ 9 * 10 ^ rest.length :=
      Nat.mul_le_mul_right _ h9
    simp only [digitsVal, List.length_cons, pow_succ]
    linarith

theorem digitsVal_head_lt {c d : Char} {r1 r2 : List Char}
    (hlen : r1.length = r2.length) (hc : isDigitC c = true)
    (hcd : c.toNat < d.toNat) (h1 : ∀ x ∈ r1, isDigitC x = true) :
    digitsVal (c :: r1) < digitsVal (d :: r2) := by
  have hb : digitsVal r1 < 10 ^ r2.length := by
    rw [← hlen]; exact digitsVal_lt_pow r1 h1
  have h48 : 48 ≤ c.toNat := by simp [isDigitC] at hc; omega
  have hstep : c.toNat - 48 + 1 ≤ d.toNat - 48 := by omega
  simp only [digitsVal, hlen]
  calc (c.toNat - 48) * 10 ^ r2.length + digitsVal r1
      < (c.toNat - 48) * 10 ^ r2.length + 10 ^ r2.length :=
        Nat.add_lt_add_left hb _
    _ = (c.toNat - 48 + 1) * 10 ^ r2.length := by ring
    _ ≤ (d.toNat - 48) * 10 ^ r2.length := Nat.mul_le_mul_right _ hstep
    _ ≤ (d.toNat - 48) * 10 ^ r2.length + digitsVal r2 := Nat.le_add_right _ _

/-- On equal-length digit lists, the JavaScript lexicographic comparison
coincides with comparison of the denoted numbers. -/
theorem jsStrLt_iff : ∀ (l1 l2 : List Char), l1.length = l2.length →
    (∀ c ∈ l1, isDigitC c = true) → (∀ c ∈ l2, isDigitC c = true) →
    (jsStrLt l1 l2 = true ↔ digitsVal l1 < digitsVal l2)
  | [], [], _, _, _ => by simp [jsStrLt]
  | [], _ :: _, hlen, _, _ => by simp at hlen
  | _ :: _, [], hlen, _, _ => by simp at hlen
  | a :: as, b :: bs, hlen, h1, h2 => by
    have hlen' : as.length = bs.length := by simpa using hlen
    have ha : isDigitC a = true := h1 a (by simp)
    have hb : isDigitC b = true := h2 b (by simp)
    have has : ∀ x ∈ as, isDigitC x = true := fun x hx => h1 x (by simp [hx])
    have hbs : ∀ x ∈ bs, isDigitC x = true := fun x hx => h2 x (by simp [hx])
    by_cases hab : a.toNat < b.toNat
    · simp only [jsStrLt, if_pos hab]
      constructor
      · intro _; exact digitsVal_head_lt hlen' ha hab has
      · intro _; trivial
    · by_cases hba : b.toNat < a.toNat
      · simp only [jsStrLt, if_neg hab, if_pos hba]
        constructor
        · intro h; simp at h
        · intro h
          exact absurd h (Nat.lt_asymm (digitsVal_head_lt hlen'.symm hb hba hbs))
      · have heq : a.toNat = b.toNat :=
          Nat.le_antisymm (Nat.not_lt.mp hba) (Nat.not_lt.mp hab)
        simp only [jsStrLt, if_neg hab, if_neg hba]
        rw [jsStrLt_iff as bs hlen' has hbs]
        simp only [digitsVal, hlen', heq]
        exact ⟨fun h => Nat.add_lt_add_left h _, fun h => Nat.lt_of_add_lt_add_left h⟩

/-- C3: with the historical flag off, the filter retains exactly the events
whose 8-digit start key denotes a number strictly greater than the reference
date key, so an event starting today is excluded; with the flag on, every
event of every bucket is retained. -/
theorem c3_future_only_filter (today : String) (b : EventBuckets) (e : Event)
    (ht : is8DigitKey today = true) (he : is8DigitKey e.start = true) :
    (e ∈ (removePast false today b).speaker ↔
      e ∈ b.speaker ∧ digitsVal today.data < digitsVal e.start.data) ∧
    (e ∈ (removePast false today b).host ↔
      e ∈ b.host ∧ digitsVal today.data < digitsVal e.start.data) ∧
    removePast true today b = b := by
  simp only [is8DigitKey, Bool.and_eq_true, beq_iff_eq, List.all_eq_true] at ht he
  have hkey : (filterByStartDate today e = true) ↔
      digitsVal today.data < digitsVal e.start.data := by
    unfold filterByStartDate
    exact jsStrLt_iff today.data e.start.data (by omega) ht.2 he.2
  refine ⟨?_, ?_, by simp [removePast]⟩
  · simp [removePast, List.mem_filter, hkey]
  · simp [removePast, List.mem_filter, hkey]

/-- Sample bucket for the C3 witness: events starting on, after and before
the reference date. -/
def c3Buckets : EventBuckets :=
  { speaker := [sampleEvent ("20240101") ("speaker"),
                sampleEvent ("20240102") ("speaker"),
                sampleEvent ("20231231") ("speaker")]
  , host := [] }

/-- Witness for C3 at the boundary example of the specification. -/
theorem c3_future_only_filter_witness :
    (sampleEvent ("20240102") ("speaker") ∈
        (removePast false ("20240101") c3Buckets).speaker ↔
      sampleEvent ("20240102") ("speaker") ∈ c3Buckets.speaker ∧
        digitsVal (String.data ("20240101")) <
          digitsVal (sampleEvent ("20240102") ("speaker")).start.data) ∧
    (sampleEvent ("20240102") ("speaker") ∈
        (removePast false ("20240101") c3Buckets).host ↔
      sampleEvent ("20240102") ("speaker") ∈ c3Buckets.host ∧
        digitsVal (String.data ("20240101")) <
          digitsVal (sampleEvent ("20240102") ("speaker")).start.data) ∧
    removePast true ("20240101") c3Buckets = c3Buckets :=
  c3_future_only_filter ("20240101") c3Buckets (sampleEvent ("20240102") ("speaker"))
    (by decide) (by decide)

/-- Numeric value of the start key, as the comparator subtraction coerces the
start texts to numbers. -/
def startKey (e : Event) : Nat := digitsVal e.start.data

/-- Comparator order of sortByStartDate on 8-digit keys. -/
def eventLe (x y : Event) : Prop := startKey x ≤ startKey y

/-- Embedding of Array sort with the comparator sortByStartDate of source
lines 73-75: ECMAScript requires the sort to be stable, so it is modelled as
a stable insertion sort by the numeric start key, inserting each newly seen
event after all earlier events with keys not greater than its own. -/
def insertEvent (e : Event) : List Event → List Event
  | [] => [e]
  | x :: xs => if startKey x ≤ startKey e then x :: insertEvent e xs else e :: x :: xs

/-- Sort a bucket, processing events in feed order. -/
def sortEvents (l : List Event) : List Event :=
  l.foldl (fun acc e => insertEvent e acc) []

/-- Sort both buckets (source lines 74-75). -/
def sortBuckets (b : EventBuckets) : EventBuckets :=
  { speaker := sortEvents b.speaker, host := sortEvents b.host }

theorem mem_insertEvent (y e : Event) : ∀ (l : List Event),
    y ∈ insertEvent e l ↔ y = e ∨ y ∈ l
  | [] => by simp [insertEvent]
  | x :: xs => by
    by_cases h : startKey x ≤ startKey e
    · simp only [insertEvent, if_pos h, List.mem_cons, mem_insertEvent y e xs]
      tauto
    · simp only [insertEvent, if_neg h, List.mem_cons]

theorem pairwise_insertEvent (e : Event) : ∀ (l : List Event),
    l.Pairwise eventLe → (insertEvent e l).Pairwise eventLe
  | [], _ => by simp [insertEvent]
  | x :: xs, h => by
    rw [List.pairwise_cons] at h
    by_cases hle : startKey x ≤ startKey e
    · rw [show insertEvent e (x :: xs) = x :: insertEvent e xs from by
        simp [insertEvent, hle]]
      rw [List.pairwise_cons]
      constructor
      · intro y hy
        rcases (mem_insertEvent y e xs).mp hy with rfl | hy'
        · exact hle
        · exact h.1 y hy'
      · exact pairwise_insertEvent e xs h.2
    · have hex : eventLe e x := Nat.le_of_not_le hle
      rw [show insertEvent e (x :: xs) = e :: x :: xs from by simp [insertEvent, hle]]
      rw [List.pairwise_cons]
      constructor
      · intro y hy
        rcases List.mem_cons.mp hy with rfl | hy'
        · exact hex
        · exact Nat.le_trans hex (h.1 y hy')
      · exact List.pairwise_cons.mpr h

theorem filter_insertEvent (k : Nat) (e : Event) : ∀ (l : List Event),
    l.Pairwise eventLe →
    (insertEvent e l).filter (fun x => startKey x == k) =
      l.filter (fun x => startKey x == k) ++
        (if startKey e == k then [e] else [])
  | [], _ => by
    simp [insertEvent, List.filter_cons]
  | x :: xs, h => by
    rw [List.pairwise_cons] at h
    by_cases hle : startKey x ≤ startKey e
    · rw [show insertEvent e (x :: xs) = x :: insertEvent e xs from by
        simp [insertEvent, hle]]
      simp only [List.filter_cons, filter_insertEvent k e xs h.2]
      by_cases hx : (startKey x == k) = true <;> simp [hx]
    · rw [show insertEvent e (x :: xs) = e :: x :: xs from by simp [insertEvent, hle]]
      by_cases hek : (startKey e == k) = true
      · have hnil : (x :: xs).filter (fun x => startKey x == k) = [] := by
          rw [List.filter_eq_nil_iff]
          intro y hy
          have h1 : startKey e < startKey y := by
            rcases List.mem_cons.mp hy with rfl | hy'
            · exact Nat.lt_of_not_le hle
            · exact Nat.lt_of_lt_of_le (Nat.lt_of_not_le hle) (h.1 y hy')
          simp only [beq_iff_eq] at hek ⊢
          omega
        rw [List.filter_cons]
        simp [hek, hnil]
      · rw [List.filter_cons]
        simp [hek]

theorem sortEvents_aux : ∀ (l acc : List Event), acc.Pairwise eventLe →
    (l.foldl (fun a e => insertEvent e a) acc).Pairwise eventLe ∧
    ∀ k, (l.foldl (fun a e => insertEvent e a) acc).filter (fun x => startKey x == k) =
      acc.filter (fun x => startKey x == k) ++ l.filter (fun x => startKey x == k)
  | [], acc, h => by simp [h]
  | e :: l, acc, h => by
    simp only [List.foldl_cons]
    have hacc : (insertEvent e acc).Pairwise eventLe := pairwise_insertEvent e acc h
    obtain ⟨hp, hf⟩ := sortEvents_aux l (insertEvent e acc) hacc
    refine ⟨hp, fun k => ?_⟩
    rw [hf k, filter_insertEvent k e acc h]
    rw [List.filter_cons]
    by_cases he : (startKey e == k) = true <;> simp [he, List.append_assoc]

/-- C4: sorting orders each bucket ascending by the start field read as an
8-digit numeric date key, and is stable: for each key value, the sublist of
events carrying that key is exactly the same, in the same order, before and
after sorting, so equal-key events keep their feed order. -/
theorem c4_sort_ascending_stable (b : EventBuckets) (k : Nat)
    (_hd : ∀ e ∈ b.speaker ++ b.host, is8DigitKey e.start = true) :
    ((sortBuckets b).speaker.Pairwise eventLe ∧
     (sortBuckets b).host.Pairwise eventLe) ∧
    ((sortBuckets b).speaker.filter (fun e => startKey e == k) =
       b.speaker.filter (fun e => startKey e == k) ∧
     (sortBuckets b).host.filter (fun e => startKey e == k) =
       b.host.filter (fun e => startKey e == k)) := by
  obtain ⟨hp1, hf1⟩ := sortEvents_aux b.speaker [] (by simp)
  obtain ⟨hp2, hf2⟩ := sortEvents_aux b.host [] (by simp)
  exact ⟨⟨hp1, hp2⟩, by simpa using hf1 k, by simpa using hf2 k⟩

/-- Sample bucket for the C4 witness: two same-day events in feed order
behind a later event. -/
def c4Buckets : EventBuckets :=
  { speaker := [sampleEvent ("20250102") ("speaker"),
                { start := "20250101", name := "first", location := "",
                  role := "speaker", type := "" },
                { start := "20250101", name := "second", location := "",
                  role := "speaker", type := "" }]
  , host := [] }

/-- Witness for C4 on a concrete bucket with two equal keys. -/
theorem c4_sort_ascending_stable_witness :
    ((sortBuckets c4Buckets).speaker.Pairwise eventLe ∧
     (sortBuckets c4Buckets).host.Pairwise eventLe) ∧
    ((sortBuckets c4Buckets).speaker.filter (fun e => startKey e == 20250101) =
       c4Buckets.speaker.filter (fun e => startKey e == 20250101) ∧
     (sortBuckets c4Buckets).host.filter (fun e => startKey e == 20250101) =
       c4Buckets.host.filter (fun e => startKey e == 20250101)) :=
  c4_sort_ascending_stable c4Buckets 20250101 (by decide)

theorem unescOne_cons_of_ne (t x : Char) (hx : x ≠ '\\') :
    ∀ (xs : List Char), unescOne t (x :: xs) = x :: unescOne t xs
  | [] => by simp [unescOne]
  | y :: ys => by
    have : ¬ (x = '\\' ∧ y = t) := fun h => hx h.1
    simp [unescOne, this]

theorem unescOne_append_of_no_bs (t : Char) :
    ∀ (pre rest : List Char), (∀ c ∈ pre, c ≠ '\\') →
    unescOne t (pre ++ rest) = pre ++ unescOne t rest
  | [], _, _ => by simp
  | p :: pre, rest, h => by
    have hp : p ≠ '\\' := h p (by simp)
    have hpre : ∀ c ∈ pre, c ≠ '\\' := fun c hc => h c (by simp [hc])
    rw [List.cons_append, unescOne_cons_of_ne t p hp,
        unescOne_append_of_no_bs t pre rest hpre]
    rfl

theorem isDigitC_ne_bs {c : Char} (h : isDigitC c = true) : c ≠ '\\' := by
  intro hc
  rw [hc] at h
  exact absurd h (by decide)

/-- C9 counterexample: a raw event whose DTSTART value is not a timestamp
yields an event whose start key is not eight digits, so the invariant does
not hold for every raw event. -/
theorem c9_counterexample :
    is8DigitKey (classify (sampleRaw ("abc"))
      (StructuredDescription.malformedJson (""))).start = false := by
  decide

/-- C9 amended: every event built by the classifier from a raw event whose
DTSTART value is at least eight characters long and starts with eight
decimal digits, as feed timestamps do, has a start key of exactly eight
digits. -/
theorem c9_amended_start_eight_digits (raw : RawEvent) (d : StructuredDescription)
    (s : String) (hs : raw.dtstartValue = some s) (hlen : 8 ≤ s.data.length)
    (hdig : ∀ c ∈ s.data.take 8, isDigitC c = true) :
    is8DigitKey (classify raw d).start = true := by
  have hsplit : s.data = s.data.take 8 ++ s.data.drop 8 :=
    (List.take_append_drop 8 s.data).symm
  have hlen8 : (s.data.take 8).length = 8 := by
    rw [List.length_take]
    omega
  have hnb : ∀ c ∈ s.data.take 8, c ≠ '\\' := fun c hc => isDigitC_ne_bs (hdig c hc)
  have hstart : (classify raw d).start = String.mk (s.data.take 8) := by
    show String.mk ((unescOne ',' ((raw.dtstartValue).getD ("")).data).take 8)
        = String.mk (s.data.take 8)
    rw [hs]
    show String.mk ((unescOne ',' s.data).take 8) = String.mk (s.data.take 8)
    rw [show unescOne ',' s.data = s.data.take 8 ++ unescOne ',' (s.data.drop 8) by
      conv_lhs => rw [hsplit]
      exact unescOne_append_of_no_bs ',' (s.data.take 8) (s.data.drop 8) hnb]
    rw [List.take_left' hlen8]
  rw [hstart]
  simp only [is8DigitKey, Bool.and_eq_true, beq_iff_eq, List.all_eq_true]
  exact ⟨hlen8, hdig⟩

/-- Witness for C9 amended at a concrete timestamp. -/
theorem c9_amended_start_eight_digits_witness :
    is8DigitKey (classify (sampleRaw ("20240615T090000"))
      (StructuredDescription.malformedJson (""))).start = true :=
  c9_amended_start_eight_digits (sampleRaw ("20240615T090000"))
    (StructuredDescription.malformedJson ("")) ("20240615T090000")
    (by rfl) (by decide) (by decide)

theorem string_mk_eq_iff (l1 l2 : List Char) :
    String.mk l1 = String.mk l2 ↔ l1 = l2 :=
  ⟨fun h => congrArg String.data h, fun h => congrArg String.mk h⟩

theorem padTakeL_length (l : List Char) (n : Nat) : (padTakeL l n).length = n := by
  simp [padTakeL]
  omega

theorem take_eq_padTakeL_iff (l : List Char) (n : Nat) :
    l.take n = padTakeL l n ↔ n ≤ l.length := by
  constructor
  · intro h
    have hl := congrArg List.length h
    rw [padTakeL_length] at hl
    simp [List.length_take] at hl
    omega
  · intro h
    simp [padTakeL, Nat.sub_eq_zero_of_le h]

theorem self_eq_padTakeL_iff (l : List Char) (n : Nat) :
    l = padTakeL l n ↔ l.length = n := by
  constructor
  · intro h
    have hl := congrArg List.length h
    rw [padTakeL_length] at hl
    exact hl
  · intro h
    subst h
    simp [padTakeL, List.take_length]

/-- C10 counterexample: the two source variants build different event records
from the same raw event, since the second pads the name to fifty characters
while the first leaves it as is. -/
theorem c10_counterexample :
    classify (sampleRaw ("20240615T090000")) (StructuredDescription.malformedJson (""))
      ≠ classifyMax (sampleRaw ("20240615T090000"))
          (StructuredDescription.malformedJson ("")) := by
  decide

/-- C10 amended: the two variants agree on role and type for every input,
and build the same event record exactly when the unescaped DTSTART value has
at least eight characters, the unescaped summary exactly fifty, and the
unescaped location exactly thirty; otherwise the padding or truncation of
the second variant makes the records differ. -/
theorem c10_amended_variant_agreement (raw : RawEvent) (d : StructuredDescription) :
    classify raw d = classifyMax raw d ↔
      (8 ≤ (unescOne ',' ((raw.dtstartValue).getD ("")).data).length ∧
       (unescOne ',' ((raw.summary).getD ("")).data).length = 50 ∧
       (unescOne ',' ((raw.location).getD ("")).data).length = 30) := by
  show (Event.mk
      (String.mk ((unescOne ',' ((raw.dtstartValue).getD ("")).data).take 8))
      (String.mk (unescOne ',' ((raw.summary).getD ("")).data))
      (String.mk (unescOne ',' ((raw.location).getD ("")).data))
      (getDatum d.roleField) (getDatum d.typeField)
    = Event.mk
      (String.mk (padTakeL (unescOne ',' ((raw.dtstartValue).getD ("")).data) 8))
      (String.mk (padTakeL (unescOne ',' ((raw.summary).getD ("")).data) 50))
      (String.mk (padTakeL (unescOne ',' ((raw.location).getD ("")).data) 30))
      (getDatum d.roleField) (getDatum d.typeField)) ↔ _
  rw [Event.mk.injEq]
  simp only [string_mk_eq_iff, and_true]
  rw [take_eq_padTakeL_iff, self_eq_padTakeL_iff, self_eq_padTakeL_iff]

/-- The per-character escaping: commas, semicolons and single quotes gain a
leading backslash, a literal newline becomes the backslash-n line-break
artifact, everything else is kept. -/
def escapeChar (c : Char) : List Char :=
  if c = ',' ∨ c = ';' ∨ c = squote then ['\\', c]
  else if c = '\n' then ['\\', 'n']
  else [c]

/-- Modelled from the spec: the escaping the upstream calendar format applies
to the description text is not part of the repository source; following the
specification, commas, semicolons and single quotes are escaped with a
backslash, and literal newlines become the backslash-n line-break artifacts
that escaping and folding leave in the delivered text. -/
def escapeUpstream (s : String) : String :=
  String.mk ((s.data.map escapeChar).join)

/-- Whether the text contains a backslash-n line-break artifact anywhere. -/
def hasEscNl : List Char → Bool
  | a :: b :: rest => (a == '\\' && b == 'n') || hasEscNl (b :: rest)
  | _ => false

theorem hasEscNl_tail {c : Char} : ∀ {l : List Char},
    hasEscNl (c :: l) = false → hasEscNl l = false
  | [], _ => rfl
  | b :: rest, h => by
    rw [hasEscNl] at h
    simp only [Bool.or_eq_false_iff] at h
    exact h.2

theorem hasEscNl_cons_of_ne {a : Char} (ha : a ≠ '\\') : ∀ (l : List Char),
    hasEscNl (a :: l) = hasEscNl l
  | [] => rfl
  | b :: rest => by
    rw [hasEscNl]
    simp [ha]

theorem hasEscNl_bs_cons {c : Char} (hc : c ≠ 'n') (l : List Char) :
    hasEscNl ('\\' :: c :: l) = hasEscNl (c :: l) := by
  rw [hasEscNl]
  simp [hc]

theorem dropSpacesEscNl_eq_none : ∀ (l : List Char), hasEscNl l = false →
    dropSpacesEscNl l = none
  | [], _ => rfl
  | [_], _ => rfl
  | a :: b :: rest, h => by
    rw [dropSpacesEscNl]
    by_cases hsp : a = ' '
    · rw [if_pos hsp]
      exact dropSpacesEscNl_eq_none (b :: rest) (hasEscNl_tail h)
    · rw [if_neg hsp]
      have hn : ¬ (a = '\\' ∧ b = 'n') := by
        intro hh
        rw [hasEscNl] at h
        simp [hh.1, hh.2] at h
      rw [if_neg hn]

theorem ccnF_id : ∀ (fuel : Nat) (l : List Char), hasEscNl l = false →
    ccnF fuel l = l
  | 0, _, _ => rfl
  | _ + 1, [], _ => rfl
  | _ + 1, [_], _ => rfl
  | fuel + 1, a :: b :: rest, h => by
    have h2 : hasEscNl (b :: rest) = false := hasEscNl_tail h
    have h3 : hasEscNl rest = false := hasEscNl_tail h2
    rw [ccnF]
    by_cases hab : a = '\\' ∧ b = ','
    · rw [if_pos hab, dropSpacesEscNl_eq_none rest h3]
      show a :: ccnF fuel (b :: rest) = a :: b :: rest
      rw [ccnF_id fuel (b :: rest) h2]
    · rw [if_neg hab, ccnF_id fuel (b :: rest) h2]

theorem conF_id : ∀ (fuel : Nat) (l : List Char), hasEscNl l = false →
    conF fuel l = l
  | 0, _, _ => rfl
  | _ + 1, [], _ => rfl
  | fuel + 1, a :: rest, h => by
    have h2 : hasEscNl rest = false := hasEscNl_tail h
    rw [conF]
    by_cases ha : a = '\x7b'
    · rw [if_pos ha, dropSpacesEscNl_eq_none rest h2]
      show a :: conF fuel rest = a :: rest
      rw [conF_id fuel rest h2]
    · rw [if_neg ha, conF_id fuel rest h2]

theorem cncF_id : ∀ (fuel : Nat) (l : List Char), hasEscNl l = false →
    cncF fuel l = l
  | 0, _, _ => rfl
  | _ + 1, [], _ => rfl
  | _ + 1, [_], _ => rfl
  | fuel + 1, a :: b :: rest, h => by
    have h2 : hasEscNl (b :: rest) = false := hasEscNl_tail h
    have hab : ¬ (a = '\\' ∧ b = 'n') := by
      intro hh
      rw [hasEscNl] at h
      simp [hh.1, hh.2] at h
    rw [cncF, if_neg hab, cncF_id fuel (b :: rest) h2]

theorem hasEscNl_escape : ∀ (l : List Char), (∀ c ∈ l, c ≠ '\\') →
    (∀ c ∈ l, c ≠ '\n') → hasEscNl ((l.map escapeChar).join) = false
  | [], _, _ => rfl
  | c :: rest, h, hnl => by
    have hc : c ≠ '\\' := h c (by simp)
    have hcnl : c ≠ '\n' := hnl c (by simp)
    have hrest : ∀ x ∈ rest, x ≠ '\\' := fun x hx => h x (by simp [hx])
    have hnlrest : ∀ x ∈ rest, x ≠ '\n' := fun x hx => hnl x (by simp [hx])
    have ih := hasEscNl_escape rest hrest hnlrest
    show hasEscNl (escapeChar c ++ (rest.map escapeChar).join) = false
    by_cases h1 : c = ',' ∨ c = ';' ∨ c = squote
    · rw [show escapeChar c = ['\\', c] from by unfold escapeChar; rw [if_pos h1]]
      show hasEscNl ('\\' :: c :: (rest.map escapeChar).join) = false
      have hcn : c ≠ 'n' := by
        rcases h1 with rfl | rfl | hq
        · decide
        · decide
        · rw [hq]; decide
      rw [hasEscNl_bs_cons hcn, hasEscNl_cons_of_ne hc]
      exact ih
    · rw [show escapeChar c = [c] from by
          unfold escapeChar; rw [if_neg h1, if_neg hcnl]]
      show hasEscNl (c :: (rest.map escapeChar).join) = false
      rw [hasEscNl_cons_of_ne hc]
      exact ih

/-- Reduction of the unescaping scanner on an explicit escape pair. -/
theorem unescOne_match (t b : Char) (l : List Char) :
    unescOne t ('\\' :: b :: l) =
      if b = t then t :: unescOne t l else '\\' :: unescOne t (b :: l) := by
  rw [unescOne]
  by_cases hb : b = t
  · simp [hb]
  · simp [hb]

/-- The escaping with the comma escapes already removed. -/
def escapeChar2 (c : Char) : List Char :=
  if c = ';' ∨ c = squote then ['\\', c] else [c]

/-- The escaping with the comma and semicolon escapes already removed. -/
def escapeChar3 (c : Char) : List Char :=
  if c = squote then ['\\', c] else [c]

theorem unesc_comma_escape : ∀ (l : List Char), (∀ c ∈ l, c ≠ '\\') →
    (∀ c ∈ l, c ≠ '\n') →
    unescOne ',' ((l.map escapeChar).join) = (l.map escapeChar2).join
  | [], _, _ => rfl
  | c :: rest, h, hnl => by
    have hc : c ≠ '\\' := h c (by simp)
    have hcnl : c ≠ '\n' := hnl c (by simp)
    have hrest : ∀ x ∈ rest, x ≠ '\\' := fun x hx => h x (by simp [hx])
    have hnlrest : ∀ x ∈ rest, x ≠ '\n' := fun x hx => hnl x (by simp [hx])
    have ih := unesc_comma_escape rest hrest hnlrest
    show unescOne ',' (escapeChar c ++ (rest.map escapeChar).join)
        = escapeChar2 c ++ (rest.map escapeChar2).join
    by_cases h1 : c = ','
    · subst h1
      rw [show escapeChar ',' = ['\\', ','] from rfl,
          show escapeChar2 ',' = [','] from rfl]
      show unescOne ',' ('\\' :: ',' :: (rest.map escapeChar).join)
          = ',' :: (rest.map escapeChar2).join
      rw [unescOne_match, if_pos rfl, ih]
    · by_cases h2 : c = ';' ∨ c = squote
      · rw [show escapeChar c = ['\\', c] from by
            unfold escapeChar; rw [if_pos (Or.inr h2)],
          show escapeChar2 c = ['\\', c] from by unfold escapeChar2; rw [if_pos h2]]
        show unescOne ',' ('\\' :: c :: (rest.map escapeChar).join)
            = '\\' :: c :: (rest.map escapeChar2).join
        rw [unescOne_match, if_neg h1, unescOne_cons_of_ne ',' c hc, ih]
      · have hno : ¬ (c = ',' ∨ c = ';' ∨ c = squote) := by tauto
        rw [show escapeChar c = [c] from by
              unfold escapeChar; rw [if_neg hno, if_neg hcnl],
            show escapeChar2 c = [c] from by unfold escapeChar2; rw [if_neg h2]]
        show unescOne ',' (c :: (rest.map escapeChar).join)
            = c :: (rest.map escapeChar2).join
        rw [unescOne_cons_of_ne ',' c hc, ih]

theorem unesc_semi_escape : ∀ (l : List Char), (∀ c ∈ l, c ≠ '\\') →
    unescOne ';' ((l.map escapeChar2).join) = (l.map escapeChar3).join
  | [], _ => rfl
  | c :: rest, h => by
    have hc : c ≠ '\\' := h c (by simp)
    have hrest : ∀ x ∈ rest, x ≠ '\\' := fun x hx => h x (by simp [hx])
    have ih := unesc_semi_escape rest hrest
    show unescOne ';' (escapeChar2 c ++ (rest.map escapeChar2).join)
        = escapeChar3 c ++ (rest.map escapeChar3).join
    by_cases h1 : c = ';'
    · subst h1
      rw [show escapeChar2 ';' = ['\\', ';'] from rfl,
          show escapeChar3 ';' = [';'] from rfl]
      show unescOne ';' ('\\' :: ';' :: (rest.map escapeChar2).join)
          = ';' :: (rest.map escapeChar3).join
      rw [unescOne_match, if_pos rfl, ih]
    · by_cases h2 : c = squote
      · rw [show escapeChar2 c = ['\\', c] from by
            unfold escapeChar2; rw [if_pos (Or.inr h2)],
          show escapeChar3 c = ['\\', c] from by unfold escapeChar3; rw [if_pos h2]]
        show unescOne ';' ('\\' :: c :: (rest.map escapeChar2).join)
            = '\\' :: c :: (rest.map escapeChar3).join
        rw [unescOne_match, if_neg h1, unescOne_cons_of_ne ';' c hc, ih]
      · have hno : ¬ (c = ';' ∨ c = squote) := by tauto
        rw [show escapeChar2 c = [c] from by unfold escapeChar2; rw [if_neg hno],
            show escapeChar3 c = [c] from by unfold escapeChar3; rw [if_neg h2]]
        show unescOne ';' (c :: (rest.map escapeChar2).join)
            = c :: (rest.map escapeChar3).join
        rw [unescOne_cons_of_ne ';' c hc, ih]

theorem unesc_quote_escape : ∀ (l : List Char), (∀ c ∈ l, c ≠ '\\') →
    unescOne squote ((l.map escapeChar3).join) = l
  | [], _ => rfl
  | c :: rest, h => by
    have hc : c ≠ '\\' := h c (by simp)
    have hrest : ∀ x ∈ rest, x ≠ '\\' := fun x hx => h x (by simp [hx])
    have ih := unesc_quote_escape rest hrest
    show unescOne squote (escapeChar3 c ++ (rest.map escapeChar3).join) = c :: rest
    by_cases h1 : c = squote
    · rw [show escapeChar3 c = ['\\', c] from by unfold escapeChar3; rw [if_pos h1]]
      show unescOne squote ('\\' :: c :: (rest.map escapeChar3).join) = c :: rest
      rw [unescOne_match, if_pos h1, ih, h1]
    · rw [show escapeChar3 c = [c] from by unfold escapeChar3; rw [if_neg h1]]
      show unescOne squote (c :: (rest.map escapeChar3).join) = c :: rest
      rw [unescOne_cons_of_ne squote c hc, ih]

theorem escape_join_nil : ∀ (l : List Char), (l.map escapeChar).join = [] → l = []
  | [], _ => rfl
  | c :: rest, h => by
    exfalso
    have hh : escapeChar c ++ (rest.map escapeChar).join = [] := h
    rcases List.append_eq_nil.mp hh with ⟨h1, _⟩
    unfold escapeChar at h1
    by_cases hc : c = ',' ∨ c = ';' ∨ c = squote
    · rw [if_pos hc] at h1; simp at h1
    · rw [if_neg hc] at h1
      by_cases hn : c = '\n'
      · rw [if_pos hn] at h1; simp at h1
      · rw [if_neg hn] at h1; simp at h1

/-- Normalizing the escaped form of a single-line, backslash-free text
recovers it. -/
theorem normalize_escape (s : String) (hb : ∀ c ∈ s.data, c ≠ '\\')
    (hnl : ∀ c ∈ s.data, c ≠ '\n')
    (hne : s ≠ "") : decodeDescription (some (escapeUpstream s)) = s := by
  have hEne : escapeUpstream s ≠ "" := by
    intro he
    apply hne
    have hd : (s.data.map escapeChar).join = [] := congrArg String.data he
    have hnil : s.data = [] := escape_join_nil s.data hd
    cases s with
    | mk d => cases hnil; rfl
  rw [show decodeDescription (some (escapeUpstream s)) =
      String.mk (decodeDescriptionL (escapeUpstream s).data) from by
    simp only [decodeDescription]; rw [if_neg hEne]]
  show String.mk (decodeDescriptionL ((s.data.map escapeChar).join)) = s
  have hfree : hasEscNl ((s.data.map escapeChar).join) = false :=
    hasEscNl_escape s.data hb hnl
  unfold decodeDescriptionL collapseCommaNl collapseOpenNl collapseNlClose
  rw [ccnF_id _ _ hfree, conF_id _ _ hfree, cncF_id _ _ hfree]
  rw [unesc_comma_escape s.data hb hnl, unesc_semi_escape s.data hb,
      unesc_quote_escape s.data hb]

/-- C8 counterexample: two valid JSON objects round-trip wrongly under the
upstream escaping. First, the object whose single field holds a comma
followed by a newline: its text carries a backslash-n string escape right
after the comma, and after upstream comma escaping the normalizer collapses
the pair into a bare comma, so decoding yields an object with the newline
lost. Second, the object whose text uses a literal newline as whitespace
after the colon: its line-break artifact sits next to neither brace nor
comma, survives normalization, and breaks the parse, so decoding yields the
malformed marker. -/
theorem c8_counterexample :
    (jsonParse ("\x7b\"a\":\",\\n\"\x7d") = some [(("a"), (",\n"))] ∧
     decode (decodeDescription (some (escapeUpstream ("\x7b\"a\":\",\\n\"\x7d"))))
       ≠ StructuredDescription.ok [(("a"), (",\n"))]) ∧
    (jsonParse ("\x7b\"a\":\n\"x\"\x7d") = some [(("a"), ("x"))] ∧
     decode (decodeDescription (some (escapeUpstream ("\x7b\"a\":\n\"x\"\x7d"))))
       ≠ StructuredDescription.ok [(("a"), ("x"))]) := by
  exact ⟨⟨by decide, by decide⟩, ⟨by decide, by decide⟩⟩

/-- C8 amended: the round-trip holds for every JSON object whose text
contains neither a backslash nor a literal newline, that is, single-line
JSON whose strings use no escape sequence: decoding the normalized form of
the upstream-escaped text yields the original object. -/
theorem c8_roundtrip_amended (t : String) (v : JsonObj)
    (hb : ∀ c ∈ t.data, c ≠ '\\') (hnl : ∀ c ∈ t.data, c ≠ '\n')
    (hp : jsonParse t = some v) :
    decode (decodeDescription (some (escapeUpstream t)))
      = StructuredDescription.ok v := by
  have hne : t ≠ "" := by
    intro he
    rw [he, show jsonParse ("") = none from by decide] at hp
    cases hp
  rw [normalize_escape t hb hnl hne]
  simp [decode, hp]

/-- Witness for C8 amended at a concrete payload. -/
theorem c8_roundtrip_amended_witness :
    decode (decodeDescription (some (escapeUpstream ("\x7b\"role\":\"speaker\"\x7d"))))
      = StructuredDescription.ok [(("role"), ("speaker"))] :=
  c8_roundtrip_amended ("\x7b\"role\":\"speaker\"\x7d") [(("role"), ("speaker"))]
    (by decide) (by decide) (by decide)

end FindMe
